import Mathlib

/-!
Shallow embedding of the rust-sine-synth voice engine (src/src/lib.rs).

Modelling conventions:
- f64 scalars (times, envelope parameters, samples) are modelled as rationals,
  since every operation the claims depend on (comparison, subtraction,
  division, max) is exact field arithmetic.
- The oscillator sample sin(t * hz(note) * TAU) is transcendental, so the
  render path is parameterised by an oscillator function osc : Nat -> Rat -> Rat
  standing for note, time |-> sin(time * hz(note) * TAU); the envelope and
  mixing claims hold for every oscillator.
- The pitch-to-frequency map midi_note_to_hz is modelled separately over the
  reals, where its exponential formula lives.
- The VST plugin shell (editor, metadata, parameter display) is out of scope
  per the spec; only the fields the voice engine reads are modelled.
-/

/-- NotePress (lib.rs lines 23-28): one pressed or releasing note. -/
structure NotePress where
  note : Nat
  pressedTime : Rat
  releasedTime : Rat
  isPressed : Bool
deriving DecidableEq, Repr

/-- SineSynth state (lib.rs lines 30-41), minus the editor, which the voice
engine never reads. -/
structure SineSynth where
  attack : Rat
  release : Rat
  sampleRate : Rat
  time : Rat
  notes : List NotePress
deriving DecidableEq, Repr

/-- Default for SineSynth (lib.rs lines 96-109). -/
def SineSynth.default : SineSynth :=
  { attack := 1/10000
    release := 1/10000
    sampleRate := 44100
    time := 0
    notes := [] }

/-- SineSynth.time_per_sample (lib.rs lines 44-46). -/
def timePerSample (s : SineSynth) : Rat :=
  1 / s.sampleRate

/-- SineSynth.note_on (lib.rs lines 66-79): retain all notes with a different
pitch, then push a fresh NotePress stamped with the current time. -/
def noteOn (s : SineSynth) (note : Nat) : SineSynth :=
  { s with notes :=
      s.notes.filter (fun x => x.note != note) ++
        [{ note := note, pressedTime := s.time, releasedTime := 0, isPressed := true }] }

/-- Helper for note_off: update the first element whose pitch matches,
leaving the rest untouched. This is the effect of
notes.iter().position(|x| x.note == note) followed by the mutation of the
element at that position (lib.rs lines 83-90); when no element matches,
position returns None and the list is unchanged. -/
def noteOffList (time : Rat) (note : Nat) : List NotePress → List NotePress
  | [] => []
  | p :: ps =>
      if p.note = note then
        { p with isPressed := false, releasedTime := time } :: ps
      else
        p :: noteOffList time note ps

/-- SineSynth.note_off (lib.rs lines 81-91). -/
def noteOff (s : SineSynth) (note : Nat) : SineSynth :=
  { s with notes := noteOffList s.time note s.notes }

/-- SineSynth.process_midi_event (lib.rs lines 58-64): dispatch on the raw
status byte; 128 is note-off on channel 0, 144 is note-on on channel 0,
everything else falls to the wildcard arm and does nothing. The third data
byte (velocity) is ignored by the source. -/
def processMidiEvent (s : SineSynth) (d0 d1 _d2 : Nat) : SineSynth :=
  if d0 = 128 then noteOff s d1
  else if d0 = 144 then noteOn s d1
  else s

/-- Plugin.set_parameter (lib.rs lines 134-140): index 0 writes attack,
index 1 writes release, after flooring the incoming value at 1.0; any other
index does nothing. -/
def setParameter (s : SineSynth) (index : Int) (value : Rat) : SineSynth :=
  if index = 0 then { s with attack := max value 1 }
  else if index = 1 then { s with release := max value 1 }
  else s

/-- Plugin.set_sample_rate (lib.rs lines 178-180): stores the incoming rate
unconditionally. -/
def setSampleRate (s : SineSynth) (rate : Rat) : SineSynth :=
  { s with sampleRate := rate }

/-- Attack factor alpha of one voice at time t (lib.rs lines 196-205).
The source compares time_since_press against a local constant
attack = 0.01 but divides by the attack field of the synth, so the
parameter attackP here is the field self.attack, while the ramp window is
the hard-coded 1/100. -/
def alphaAt (attackP : Rat) (p : NotePress) (t : Rat) : Rat :=
  let timeSincePress := t - p.pressedTime
  if timeSincePress < 1/100 then timeSincePress / attackP else 1

/-- Release factor beta of one voice at time t (lib.rs lines 207-217).
The source uses only the local constant release = 0.01 here; the release
field of the synth is never read by the render path, so betaAt takes no
release parameter. -/
def betaAt (p : NotePress) (t : Rat) : Rat :=
  if p.isPressed then 1
  else
    let timeSinceRelease := t - p.releasedTime
    if timeSinceRelease < 1/100 then 1 - timeSinceRelease / (1/100) else 0

/-- Envelope-shaped oscillator sample of one voice: signal * alpha * beta.
This is the amplitude_at of the spec, assembled from the factors the source
multiplies together (lib.rs lines 194-220). -/
def amplitudeAt (osc : Nat → Rat → Rat) (attackP : Rat) (p : NotePress) (t : Rat) : Rat :=
  osc p.note t * alphaAt attackP p t * betaAt p t

/-- Mixed contribution added to one output sample at time t
(lib.rs lines 190-221): for each note, signal * (alpha * beta / num_notes)
is accumulated; num_notes is the length of the note list. -/
def sampleContribution (osc : Nat → Rat → Rat) (attackP : Rat)
    (notes : List NotePress) (t : Rat) : Rat :=
  (notes.map
    (fun p => osc p.note t * (alphaAt attackP p t * betaAt p t / (notes.length : Rat)))).sum

/-- One channel of the per-sample loop (lib.rs lines 188-224): walk the
output buffer, adding the mixed contribution at the running time t to each
sample, stepping t by dt per sample. -/
def renderBuffer (osc : Nat → Rat → Rat) (attackP : Rat) (notes : List NotePress)
    (t dt : Rat) : List Rat → List Rat
  | [] => []
  | o :: rest =>
      (o + sampleContribution osc attackP notes t) ::
        renderBuffer osc attackP notes (t + dt) dt rest

/-- Plugin.process (lib.rs lines 182-228): every channel is rendered from the
same pre-buffer clock value (let mut t = self.time is re-run per channel),
and afterwards the clock advances once, by samples * per_sample. The input
buffers only bound the iteration; buffers are taken at their nominal length. -/
def process (osc : Nat → Rat → Rat) (s : SineSynth) (samples : Nat)
    (channels : List (List Rat)) : SineSynth × List (List Rat) :=
  ({ s with time := s.time + (samples : Rat) * timePerSample s },
   channels.map (fun out => renderBuffer osc s.attack s.notes s.time (timePerSample s) out))

/-- Clamp of the spec formulas: clamp(x, lo, hi). -/
def clamp (x lo hi : Rat) : Rat :=
  max lo (min hi x)

/-- Modelled from the spec: the attack gain formula the spec states,
clamp((t - pressed_at) / attack, 0, 1); the source has no such clamped
form, so this definition exists only to be compared with alphaAt. -/
def specAttackGain (attackP : Rat) (p : NotePress) (t : Rat) : Rat :=
  clamp ((t - p.pressedTime) / attackP) 0 1

/-- Modelled from the spec: the release gain formula the spec states,
1 while active, otherwise clamp(1 - (t - released_at) / release, 0, 1),
with release the configured parameter; to be compared with betaAt. -/
def specReleaseGain (releaseP : Rat) (p : NotePress) (t : Rat) : Rat :=
  if p.isPressed then 1 else clamp (1 - (t - p.releasedTime) / releaseP) 0 1

/-- Modelled from the spec: is_dead(t), true iff the voice is not active and
its release gain is at most zero. The source defines no such predicate; the
release gain of the source is betaAt. -/
def isDead (p : NotePress) (t : Rat) : Prop :=
  p.isPressed = false ∧ betaAt p t ≤ 0

instance (p : NotePress) (t : Rat) : Decidable (isDead p t) := by
  unfold isDead; infer_instance

/-- midi_note_to_hz (lib.rs lines 17-21): (440 / 32) * 2 ^ ((note - 9) / 12),
over the reals. -/
noncomputable def midiNoteToHz (note : Nat) : ℝ :=
  (440 / 32) * (2 : ℝ) ^ (((note : ℝ) - 9) / 12)

/-- Concrete scenario voice: pressed at 0, released at 0, so fully decayed
from time 0.01 on. -/
def deadVoice : NotePress :=
  { note := 60, pressedTime := 0, releasedTime := 0, isPressed := false }

/-- Concrete scenario synth whose pool holds only deadVoice, clock at 1 s. -/
def deadSynth : SineSynth :=
  { attack := 1/10000, release := 1/10000, sampleRate := 44100, time := 1,
    notes := [deadVoice] }

/-- Concrete scenario voice for a duplicate note-off: already released at 1. -/
def staleVoice : NotePress :=
  { note := 60, pressedTime := 0, releasedTime := 1, isPressed := false }

/-- Concrete scenario synth whose pool holds only staleVoice, clock at 5 s. -/
def staleSynth : SineSynth :=
  { attack := 1/10000, release := 1/10000, sampleRate := 44100, time := 5,
    notes := [staleVoice] }

/-! Helper lemmas shared by the claim theorems. -/

lemma sum_map_div (l : List NotePress) (f : NotePress → Rat) (c : Rat) :
    (l.map (fun p => f p / c)).sum = (l.map f).sum / c := by
  induction l with
  | nil => simp
  | cons p ps ih => simp [ih, add_div]

lemma sampleContribution_eq_sum_div (osc : Nat → Rat → Rat) (a : Rat)
    (notes : List NotePress) (t : Rat) :
    sampleContribution osc a notes t =
      (notes.map (fun p => amplitudeAt osc a p t)).sum / (notes.length : Rat) := by
  unfold sampleContribution
  rw [show (fun p => osc p.note t * (alphaAt a p t * betaAt p t / (notes.length : Rat)))
      = (fun p => amplitudeAt osc a p t / (notes.length : Rat)) from
    funext fun p => by unfold amplitudeAt; ring]
  exact sum_map_div notes _ _

lemma sampleContribution_nil (osc : Nat → Rat → Rat) (a t : Rat) :
    sampleContribution osc a [] t = 0 := rfl

lemma betaAt_of_nonpos (p : NotePress) (t : Rat)
    (hp : p.isPressed = false) (h : betaAt p t ≤ 0) : betaAt p t = 0 := by
  unfold betaAt at h ⊢
  rw [hp] at h ⊢
  simp only [Bool.false_eq_true, if_false] at h ⊢
  by_cases hlt : t - p.releasedTime < 1/100
  · exfalso
    rw [if_pos hlt] at h
    rw [div_div_eq_mul_div, div_one] at h
    linarith
  · rw [if_neg hlt]

lemma betaAt_eq_zero_of_late (p : NotePress) (t : Rat)
    (hp : p.isPressed = false) (h : 1/100 ≤ t - p.releasedTime) : betaAt p t = 0 := by
  unfold betaAt
  rw [hp]
  simp only [Bool.false_eq_true, if_false]
  rw [if_neg (not_lt.mpr h)]

lemma noteOffList_of_no_match (time : Rat) (note : Nat) :
    ∀ l : List NotePress, (∀ q ∈ l, q.note ≠ note) → noteOffList time note l = l
  | [], _ => rfl
  | p :: ps, h => by
      simp only [noteOffList]
      rw [if_neg (h p (List.mem_cons_self p ps)),
        noteOffList_of_no_match time note ps (fun q hq => h q (List.mem_cons_of_mem p hq))]

lemma noteOffList_first_match (time : Rat) (note : Nat) :
    ∀ (pre : List NotePress) (p : NotePress) (rest : List NotePress),
      (∀ q ∈ pre, q.note ≠ note) → p.note = note →
      noteOffList time note (pre ++ p :: rest) =
        pre ++ { p with isPressed := false, releasedTime := time } :: rest
  | [], p, rest, _, hp => by simp only [List.nil_append, noteOffList, if_pos hp]
  | q :: pre, p, rest, hpre, hp => by
      rw [List.cons_append]
      simp only [noteOffList]
      rw [if_neg (hpre q (List.mem_cons_self q pre)),
        noteOffList_first_match time note pre p rest
          (fun r hr => hpre r (List.mem_cons_of_mem q hr)) hp,
        List.cons_append]

lemma renderBuffer_eq_mapIdx (osc : Nat → Rat → Rat) (a : Rat) (ns : List NotePress)
    (dt : Rat) : ∀ (out : List Rat) (t : Rat),
    renderBuffer osc a ns t dt out =
      out.mapIdx (fun i o => o + sampleContribution osc a ns (t + (i : Rat) * dt))
  | [], t => by simp [renderBuffer]
  | o :: rest, t => by
      rw [renderBuffer, List.mapIdx_cons, renderBuffer_eq_mapIdx osc a ns dt rest (t + dt)]
      congr 1
      · simp
      · congr 1
        funext i x
        congr 1
        push_cast
        ring_nf

lemma renderBuffer_nil_notes (osc : Nat → Rat → Rat) (a : Rat) (dt : Rat) :
    ∀ (out : List Rat) (t : Rat), renderBuffer osc a [] t dt out = out
  | [], _ => rfl
  | o :: rest, t => by
      rw [renderBuffer, sampleContribution_nil, add_zero,
        renderBuffer_nil_notes osc a dt rest (t + dt)]

/-- Claim C1 (code bug): at the default attack parameter 0.0001, for a voice
pressed at time 0, the attack factor the render loop uses at t = 0.005 is 50,
because the source compares elapsed time against the hard-coded window 0.01
while dividing by the attack field; the attack gain of the claim,
clamp((t - pressed_at) / attack, 0, 1), is 1 there and never exceeds 1. -/
theorem attack_gain_code_bug_eval :
    alphaAt SineSynth.default.attack
        { note := 69, pressedTime := 0, releasedTime := 0, isPressed := true } (1/200) = 50
    ∧ specAttackGain SineSynth.default.attack
        { note := 69, pressedTime := 0, releasedTime := 0, isPressed := true } (1/200) = 1 := by
  constructor
  · show (if ((1:Rat)/200 - 0) < 1/100 then ((1:Rat)/200 - 0) / (1/10000) else 1) = 50
    rw [if_pos (by norm_num : ((1:Rat)/200 - 0) < 1/100)]
    norm_num
  · show max 0 (min 1 (((1:Rat)/200 - 0) / (1/10000))) = 1
    rw [show ((1:Rat)/200 - 0) / (1/10000) = 50 by norm_num,
      min_eq_left (by norm_num : (1:Rat) ≤ 50),
      max_eq_right (by norm_num : (0:Rat) ≤ 1)]

/-- Claim C3: the mixed sample at time t is the sum of the envelope-shaped
oscillator samples of all voices in the pool divided by the voice count, it
is 0 when the pool is empty, and with exactly two voices each voice
contributes its amplitude divided by 2. -/
theorem mix_at_sum_div_count (osc : Nat → Rat → Rat) (a t : Rat)
    (notes : List NotePress) (p1 p2 : NotePress) :
    sampleContribution osc a notes t =
        (notes.map (fun p => amplitudeAt osc a p t)).sum / (notes.length : Rat)
    ∧ sampleContribution osc a [] t = 0
    ∧ sampleContribution osc a [p1, p2] t =
        amplitudeAt osc a p1 t / 2 + amplitudeAt osc a p2 t / 2 := by
  refine ⟨sampleContribution_eq_sum_div osc a notes t, rfl, ?_⟩
  rw [sampleContribution_eq_sum_div]
  simp only [List.map_cons, List.map_nil, List.sum_cons, List.sum_nil, List.length_cons,
    List.length_nil]
  push_cast
  ring

/-- Claim C8 (corrected): set_sample_rate stores whatever rate it is given,
with no validation; storing 0 leaves the synth with a non-positive sample
rate, so the claim that non-positive rates are rejected at configuration
time fails. -/
theorem set_sample_rate_accepts_zero_cex :
    (setSampleRate SineSynth.default 0).sampleRate = 0
    ∧ ¬ (0 < (setSampleRate SineSynth.default 0).sampleRate) :=
  ⟨rfl, lt_irrefl 0⟩

/-- Claim C8 (amended): set_sample_rate stores the given rate unchanged,
whatever its sign, and time_per_sample then divides by that stored rate. -/
theorem set_sample_rate_unvalidated (s : SineSynth) (rate : Rat) :
    (setSampleRate s rate).sampleRate = rate
    ∧ timePerSample (setSampleRate s rate) = 1 / rate := by
  exact ⟨rfl, rfl⟩

/-- Claim C10: process_midi_event changes the synth only for status byte 128
(note-off, channel 0) or 144 (note-on, channel 0); for every other status
byte, including note messages on channels 1 to 15, the state is returned
unchanged. -/
theorem process_midi_event_frame (s : SineSynth) (d0 d1 d2 : Nat)
    (h0 : d0 ≠ 128) (h1 : d0 ≠ 144) :
    processMidiEvent s d0 d1 d2 = s := by
  unfold processMidiEvent
  rw [if_neg h0, if_neg h1]

/-- Witness for C10 at a concrete channel-1 note-on status byte. -/
theorem process_midi_event_frame_witness :
    processMidiEvent SineSynth.default 145 60 100 = SineSynth.default :=
  process_midi_event_frame SineSynth.default 145 60 100 (by decide) (by decide)

/-- Claim C2 (counterexample): the pool of deadSynth holds one voice that is
dead at the end time of a 441-sample buffer, yet after process has produced
that buffer the voice is still in the pool: no prune exists. -/
theorem dead_voice_retained_cex :
    (process (fun _ _ => 0) deadSynth 441 []).1.notes = [deadVoice]
    ∧ isDead deadVoice ((process (fun _ _ => 0) deadSynth 441 []).1.time) := by
  have ht : (process (fun _ _ => 0) deadSynth 441 []).1.time = 101/100 := by
    show deadSynth.time + (441 : Rat) * timePerSample deadSynth = 101/100
    norm_num [deadSynth, timePerSample]
  refine ⟨rfl, ?_⟩
  rw [ht]
  exact ⟨rfl, le_of_eq (betaAt_eq_zero_of_late deadVoice (101/100) rfl (by norm_num [deadVoice]))⟩

/-- Claim C2 (amended): process never removes any voice from the pool; a dead
voice contributes a zero term to the mixed sample, but it is retained and
keeps counting toward the per-sample divisor. -/
theorem process_keeps_pool_dead_voice_silent (osc : Nat → Rat → Rat) (s : SineSynth)
    (n : Nat) (chans : List (List Rat)) (p : NotePress) (t : Rat) (hdead : isDead p t) :
    (process osc s n chans).1.notes = s.notes
    ∧ osc p.note t * (alphaAt s.attack p t * betaAt p t / ((s.notes.length : Rat))) = 0 := by
  refine ⟨rfl, ?_⟩
  rw [betaAt_of_nonpos p t hdead.1 hdead.2]
  ring

/-- Witness for the amended C2 at the concrete dead voice. -/
theorem process_keeps_pool_dead_voice_silent_witness :
    (process (fun _ _ => 0) deadSynth 441 []).1.notes = deadSynth.notes
    ∧ (fun _ _ => (0 : Rat)) deadVoice.note (101/100) *
        (alphaAt deadSynth.attack deadVoice (101/100) * betaAt deadVoice (101/100) /
          ((deadSynth.notes.length : Rat))) = 0 :=
  process_keeps_pool_dead_voice_silent (fun _ _ => 0) deadSynth 441 [] deadVoice (101/100)
    ⟨rfl, le_of_eq (betaAt_eq_zero_of_late deadVoice (101/100) rfl (by norm_num [deadVoice]))⟩

/-- Claim C4 (counterexample): staleSynth holds one voice for pitch 60 that is
already released (released_time 1); note_off 60 at clock 5 is not a no-op:
it re-stamps released_time to 5. -/
theorem note_off_restamps_released_cex :
    (noteOff staleSynth 60).notes =
        [{ note := 60, pressedTime := 0, releasedTime := 5, isPressed := false }]
    ∧ noteOff staleSynth 60 ≠ staleSynth := by
  have h2 : (noteOff staleSynth 60).notes =
      [{ note := 60, pressedTime := 0, releasedTime := 5, isPressed := false }] := by decide
  refine ⟨h2, fun heq => ?_⟩
  rw [heq] at h2
  exact absurd h2 (by decide)

/-- Claim C4 (amended): note_off updates the first voice whose pitch matches,
whether or not it is still active, setting is_pressed to false and
released_time to the current clock; it is a no-op exactly when no voice with
that pitch is in the pool; all other synth fields are unchanged. -/
theorem note_off_first_pitch_match (s : SineSynth) (note : Nat) :
    ((∀ q ∈ s.notes, q.note ≠ note) → noteOff s note = s)
    ∧ (∀ pre p rest, s.notes = pre ++ p :: rest → (∀ q ∈ pre, q.note ≠ note) →
        p.note = note →
        (noteOff s note).notes =
          pre ++ { p with isPressed := false, releasedTime := s.time } :: rest)
    ∧ (noteOff s note).time = s.time
    ∧ (noteOff s note).attack = s.attack
    ∧ (noteOff s note).release = s.release
    ∧ (noteOff s note).sampleRate = s.sampleRate := by
  refine ⟨?_, ?_, rfl, rfl, rfl, rfl⟩
  · intro h
    show { s with notes := noteOffList s.time note s.notes } = s
    rw [noteOffList_of_no_match s.time note s.notes h]
  · intro pre p rest hsplit hpre hp
    show noteOffList s.time note s.notes = _
    rw [hsplit, noteOffList_first_match s.time note pre p rest hpre hp]

/-- Witness for the amended C4 at the concrete stale voice. -/
theorem note_off_first_pitch_match_witness :
    (noteOff staleSynth 60).notes =
      [] ++ { staleVoice with isPressed := false, releasedTime := staleSynth.time } :: [] :=
  (note_off_first_pitch_match staleSynth 60).2.1 [] staleVoice [] rfl (by simp) rfl

/-- Claim C5 (counterexample): with the release parameter configured to 2
seconds through set_parameter, the release gain the render loop uses for a
voice released at time 0 is 0 at t = 0.5, while the formula of the claim,
clamp(1 - (t - released_at) / release, 0, 1), gives 3/4: the configured
release parameter is ignored by the render path. -/
theorem release_gain_ignores_param_cex :
    betaAt { note := 60, pressedTime := 0, releasedTime := 0, isPressed := false } (1/2) = 0
    ∧ specReleaseGain (setParameter SineSynth.default 1 2).release
        { note := 60, pressedTime := 0, releasedTime := 0, isPressed := false } (1/2) = 3/4 := by
  constructor
  · exact betaAt_eq_zero_of_late _ _ rfl (by norm_num)
  · have hr : (setParameter SineSynth.default 1 2).release = 2 := by
      show max (2 : Rat) 1 = 2
      exact max_eq_left (by norm_num)
    rw [hr]
    show max 0 (min 1 (1 - ((1 : Rat)/2 - 0) / 2)) = 3/4
    rw [show (1 - ((1 : Rat)/2 - 0) / 2) = 3/4 by norm_num,
      min_eq_right (by norm_num : (3 : Rat)/4 ≤ 1),
      max_eq_right (by norm_num : (0 : Rat) ≤ 3/4)]

/-- Claim C5 (amended): for times at or after the release stamp, the release
gain the render loop uses equals 1 while the voice is active and otherwise
clamp(1 - (t - released_at) / 0.01, 0, 1), with the release duration
hard-coded to 0.01 s rather than the configured parameter; the gain is 1 at
the instant of release, 0 from released_at + 0.01 on, and from that point the
voice is dead and stays dead. -/
theorem release_gain_hardcoded_clamp (p : NotePress) (t : Rat)
    (h : p.releasedTime ≤ t) :
    betaAt p t = (if p.isPressed then 1 else clamp (1 - (t - p.releasedTime) / (1/100)) 0 1)
    ∧ (p.isPressed = false → t = p.releasedTime → betaAt p t = 1)
    ∧ (p.isPressed = false → p.releasedTime + 1/100 ≤ t → betaAt p t = 0 ∧ isDead p t) := by
  cases hb : p.isPressed with
  | true =>
      refine ⟨?_, ?_, ?_⟩
      · simp [betaAt, hb]
      · intro hf; exact absurd hf (by simp)
      · intro hf; exact absurd hf (by simp)
  | false =>
      have hts : (t - p.releasedTime) / (1/100) = (t - p.releasedTime) * 100 := by
        rw [div_div_eq_mul_div, div_one]
      refine ⟨?_, ?_, ?_⟩
      · unfold betaAt clamp
        rw [hb]
        simp only [Bool.false_eq_true, if_false]
        by_cases hlt : t - p.releasedTime < 1/100
        · rw [if_pos hlt, hts]
          have h0 : (0 : Rat) ≤ (t - p.releasedTime) * 100 :=
            mul_nonneg (by linarith) (by norm_num)
          have h1 : (t - p.releasedTime) * 100 < 1 := by
            have := mul_lt_mul_of_pos_right hlt (by norm_num : (0 : Rat) < 100)
            linarith
          rw [min_eq_right (by linarith : (1 : Rat) - (t - p.releasedTime) * 100 ≤ 1),
            max_eq_right (by linarith : (0 : Rat) ≤ 1 - (t - p.releasedTime) * 100)]
        · rw [if_neg hlt, hts]
          have h1 : (1 : Rat) ≤ (t - p.releasedTime) * 100 := by
            have h2 := not_lt.mp hlt
            have := mul_le_mul_of_nonneg_right h2 (by norm_num : (0 : Rat) ≤ 100)
            linarith
          rw [min_eq_right (by linarith : (1 : Rat) - (t - p.releasedTime) * 100 ≤ 1),
            max_eq_left (by linarith : (1 : Rat) - (t - p.releasedTime) * 100 ≤ 0)]
      · intro _ hteq
        subst hteq
        unfold betaAt
        rw [hb]
        simp only [Bool.false_eq_true, if_false, sub_self]
        rw [if_pos (by norm_num : (0 : Rat) < 1/100)]
        norm_num
      · intro _ hge
        have hz := betaAt_eq_zero_of_late p t hb (by linarith)
        exact ⟨hz, hb, le_of_eq hz⟩

/-- Witness for the amended C5 at a concrete released voice and t = 0.02. -/
theorem release_gain_hardcoded_clamp_witness :
    betaAt { note := 60, pressedTime := 0, releasedTime := 0, isPressed := false } (1/50)
        = (if ({ note := 60, pressedTime := 0, releasedTime := 0, isPressed := false }
              : NotePress).isPressed then 1
           else clamp (1 - ((1:Rat)/50 -
              ({ note := 60, pressedTime := 0, releasedTime := 0, isPressed := false }
                : NotePress).releasedTime) / (1/100)) 0 1)
    ∧ (({ note := 60, pressedTime := 0, releasedTime := 0, isPressed := false }
          : NotePress).isPressed = false →
        (1:Rat)/50 = ({ note := 60, pressedTime := 0, releasedTime := 0, isPressed := false }
          : NotePress).releasedTime →
        betaAt { note := 60, pressedTime := 0, releasedTime := 0, isPressed := false } (1/50) = 1)
    ∧ (({ note := 60, pressedTime := 0, releasedTime := 0, isPressed := false }
          : NotePress).isPressed = false →
        ({ note := 60, pressedTime := 0, releasedTime := 0, isPressed := false }
          : NotePress).releasedTime + 1/100 ≤ (1:Rat)/50 →
        betaAt { note := 60, pressedTime := 0, releasedTime := 0, isPressed := false } (1/50) = 0
        ∧ isDead { note := 60, pressedTime := 0, releasedTime := 0, isPressed := false } ((1:Rat)/50)) :=
  release_gain_hardcoded_clamp
    { note := 60, pressedTime := 0, releasedTime := 0, isPressed := false } (1/50)
    (by show (0 : Rat) ≤ 1/50; norm_num)

/-- Claim C6: the pitch-to-frequency map equals (440/32) * 2 ^ ((pitch - 9)/12);
it sends 69 to exactly 440, is strictly monotone in the pitch, and doubles
across an octave of 12 semitones. -/
theorem midi_note_to_hz_spec :
    midiNoteToHz 69 = 440
    ∧ (∀ p q : Nat, p < q → midiNoteToHz p < midiNoteToHz q)
    ∧ (∀ p : Nat, midiNoteToHz (p + 12) = 2 * midiNoteToHz p) := by
  refine ⟨?_, ?_, ?_⟩
  · unfold midiNoteToHz
    rw [show (((69 : Nat) : ℝ) - 9) / 12 = ((5 : Nat) : ℝ) by norm_num,
      Real.rpow_natCast]
    norm_num
  · intro p q hpq
    unfold midiNoteToHz
    have hx : (((p : Nat) : ℝ) - 9) / 12 < (((q : Nat) : ℝ) - 9) / 12 := by
      have hc : (p : ℝ) < (q : ℝ) := Nat.cast_lt.mpr hpq
      linarith
    exact mul_lt_mul_of_pos_left
      ((Real.rpow_lt_rpow_left_iff one_lt_two).mpr hx) (by norm_num)
  · intro p
    unfold midiNoteToHz
    rw [show (((p + 12 : Nat) : ℝ) - 9) / 12 = ((p : ℝ) - 9) / 12 + 1 by push_cast; ring,
      Real.rpow_add (by norm_num : (0 : ℝ) < 2), Real.rpow_one]
    ring

/-- Witness for C6 at concrete pitches 69, 60 < 61 and the octave 69 to 81. -/
theorem midi_note_to_hz_spec_witness :
    midiNoteToHz 69 = 440
    ∧ midiNoteToHz 60 < midiNoteToHz 61
    ∧ midiNoteToHz 81 = 2 * midiNoteToHz 69 :=
  ⟨midi_note_to_hz_spec.1, midi_note_to_hz_spec.2.1 60 61 (by decide),
    midi_note_to_hz_spec.2.2 69⟩

/-- Claim C7: process advances the clock exactly once per buffer, by
samples / sample_rate, as a running sum on top of the previous clock; the
clock never decreases for a positive sample rate, strictly increases for a
nonempty buffer, and sample i of every channel is rendered at the pre-buffer
clock plus i / sample_rate. -/
theorem process_clock_advance (osc : Nat → Rat → Rat) (s : SineSynth) (n : Nat)
    (chans : List (List Rat)) :
    (process osc s n chans).1.time = s.time + (n : Rat) / s.sampleRate
    ∧ (0 < s.sampleRate → s.time ≤ (process osc s n chans).1.time)
    ∧ (0 < s.sampleRate → 0 < n → s.time < (process osc s n chans).1.time)
    ∧ (process osc s n chans).2 =
        chans.map (fun out =>
          out.mapIdx (fun i o =>
            o + sampleContribution osc s.attack s.notes
              (s.time + (i : Rat) / s.sampleRate))) := by
  have ht : (process osc s n chans).1.time = s.time + (n : Rat) / s.sampleRate := by
    show s.time + (n : Rat) * timePerSample s = _
    rw [timePerSample, mul_one_div]
  refine ⟨ht, ?_, ?_, ?_⟩
  · intro hsr
    rw [ht]
    have hd : (0 : Rat) ≤ (n : Rat) / s.sampleRate :=
      div_nonneg (Nat.cast_nonneg n) (le_of_lt hsr)
    linarith
  · intro hsr hn
    rw [ht]
    have hd : (0 : Rat) < (n : Rat) / s.sampleRate :=
      div_pos (by exact_mod_cast hn) hsr
    linarith
  · show chans.map (fun out =>
        renderBuffer osc s.attack s.notes s.time (timePerSample s) out) = _
    rw [show (fun out => renderBuffer osc s.attack s.notes s.time (timePerSample s) out)
        = (fun out : List Rat => out.mapIdx (fun i o =>
            o + sampleContribution osc s.attack s.notes
              (s.time + (i : Rat) / s.sampleRate))) from funext fun out => by
      rw [renderBuffer_eq_mapIdx]
      congr 1
      funext i o
      rw [timePerSample, mul_one_div]]

/-- Witness for C7 at a concrete 441-sample buffer on the default synth. -/
theorem process_clock_advance_witness :
    SineSynth.default.time ≤ (process (fun _ _ => 0) SineSynth.default 441 []).1.time
    ∧ SineSynth.default.time < (process (fun _ _ => 0) SineSynth.default 441 []).1.time :=
  ⟨(process_clock_advance (fun _ _ => 0) SineSynth.default 441 []).2.1
      (by show (0 : Rat) < 44100; norm_num),
   (process_clock_advance (fun _ _ => 0) SineSynth.default 441 []).2.2.1
      (by show (0 : Rat) < 44100; norm_num) (by norm_num)⟩

/-- Claim C9: process accumulates into the output with addition: every output
sample equals its prior contents plus the mixed contribution at the time of
that sample; with an empty note pool the output buffers come back exactly
unchanged. -/
theorem process_accumulates_output (osc : Nat → Rat → Rat) (s : SineSynth) (n : Nat)
    (chans : List (List Rat)) :
    (process osc s n chans).2 =
        chans.map (fun out =>
          out.mapIdx (fun i o =>
            o + sampleContribution osc s.attack s.notes
              (s.time + (i : Rat) * timePerSample s)))
    ∧ (s.notes = [] → (process osc s n chans).2 = chans) := by
  constructor
  · show chans.map (fun out =>
        renderBuffer osc s.attack s.notes s.time (timePerSample s) out) = _
    rw [show (fun out => renderBuffer osc s.attack s.notes s.time (timePerSample s) out)
        = (fun out : List Rat => out.mapIdx (fun i o =>
            o + sampleContribution osc s.attack s.notes
              (s.time + (i : Rat) * timePerSample s))) from funext fun out =>
      renderBuffer_eq_mapIdx osc s.attack s.notes (timePerSample s) out s.time]
  · intro hnil
    show chans.map (fun out =>
        renderBuffer osc s.attack s.notes s.time (timePerSample s) out) = chans
    rw [show (fun out => renderBuffer osc s.attack s.notes s.time (timePerSample s) out)
        = (fun out : List Rat => out) from funext fun out => by
      rw [hnil, renderBuffer_nil_notes]]
    exact List.map_id' chans

/-- Witness for C9 on the default synth, whose note pool is empty. -/
theorem process_accumulates_output_witness :
    (process (fun _ _ => 0) SineSynth.default 4 [[1, 2], [3, 4]]).2 = [[1, 2], [3, 4]] :=
  (process_accumulates_output (fun _ _ => 0) SineSynth.default 4 [[1, 2], [3, 4]]).2 rfl
